import Mathlib

/-!
Verification of the SmartBaseModel repository against its specification.

The Python sources are shallowly embedded: pure functions become Lean
functions, stateful classes become explicit state records with state-passing
functions, callback invocations and channel emissions are recorded as
explicit event lists, and external effects (the subprocess, the model
client) are abstracted as oracle parameters describing one run's observable
behaviour.  Machine-level concerns do not arise (no overflow-sensitive
arithmetic in the modelled code).
-/

/-! ## Broadcast Channel: `messaging/behavior_subject.py`

`Observable` keeps a list of subscriber callbacks; `BehaviorSubject` wraps an
`Observable` plus a last-value slot.  Callbacks are modelled by identifiers
(`Nat`); a call of callback `k` with value `v` is recorded as the pair
`(k, v)` in the returned delivery list. -/

structure BehaviorSubjectState (α : Type) where
  value : Option α
  subscribers : List Nat
  deriving Repr, DecidableEq

/-- `BehaviorSubject.__init__`: no value yet, no subscribers. -/
def BehaviorSubjectState.init (α : Type) : BehaviorSubjectState α :=
  { value := none, subscribers := [] }

/-- `BehaviorSubject.subscribe`: appends the subscriber to the inner
observable's list.  The second component is the list of callback invocations
performed during the call (the source performs none). -/
def BehaviorSubjectState.subscribe (st : BehaviorSubjectState α) (cb : Nat) :
    BehaviorSubjectState α × List (Nat × α) :=
  ({ st with subscribers := st.subscribers ++ [cb] }, [])

/-- `BehaviorSubject.next`: stores the value, then `Observable.emit` calls
every subscriber in registration order with it. -/
def BehaviorSubjectState.next (st : BehaviorSubjectState α) (v : α) :
    BehaviorSubjectState α × List (Nat × α) :=
  ({ st with value := some v }, st.subscribers.map (fun cb => (cb, v)))

/-! ## Schema Reflection Engine: `utils/common_utils.py`

`recursively_search_base_model_dependencies` walks a class's pydantic field
annotations.  A schema graph assigns to each `BaseModel` class (numbered by
`Nat`) its list of field annotations.  `TypeArg` is an object handed to the
inner `dfs`: a `BaseModel` subclass, some other class (its `__mro__` lacks
`BaseModel`, e.g. `int` or `NoneType`), or an object without `__mro__`
(e.g. a bare `typing` construct), which `_optional_mro` turns into `None`.
A field annotation is dispatched on `get_origin`: a `Union`, an iterable
origin (`Iterable`/`list`/`tuple`/`set`), a plain type, or the annotation
`None` (skipped). -/

inductive TypeArg where
  | baseModelCls (i : Nat)
  | otherCls
  | noMro
  deriving Repr, DecidableEq

inductive FieldAnn where
  | union (args : List TypeArg)
  | iterable (args : List TypeArg)
  | direct (t : TypeArg)
  | noneAnn
  deriving Repr, DecidableEq

/-- `deps.add(cls)`: Python set insertion, modelled on an insertion-ordered
duplicate-free list. -/
def addDep (i : Nat) (deps : List Nat) : List Nat :=
  if i ∈ deps then deps else deps ++ [i]

mutual

/-- The inner `dfs` of `recursively_search_base_model_dependencies`, with an
explicit fuel bound on recursion depth because the source contains no
mechanism that bounds it: `dfs` checks the `__mro__`, adds the class to
`deps`, and recurses into every field annotation — it never consults `deps`
before recursing.  `none` means the fuel ran out, i.e. the source would
still be recursing at that depth. -/
def dfsFuel (g : Nat → List FieldAnn) : Nat → TypeArg → List Nat → Option (List Nat)
  | 0, _, _ => none
  | Nat.succ fuel, t, deps =>
    match t with
    | .noMro => some deps
    | .otherCls => some deps
    | .baseModelCls i => dfsFields g fuel (g i) (addDep i deps)

/-- The `for _, field_info in source_cls.model_fields.items()` loop of `dfs`:
each annotation is dispatched on its origin and recursed into. -/
def dfsFields (g : Nat → List FieldAnn) : Nat → List FieldAnn → List Nat → Option (List Nat)
  | _, [], deps => some deps
  | fuel, f :: fs, deps =>
    match f with
    | .noneAnn => dfsFields g fuel fs deps
    | .direct t => (dfsFuel g fuel t deps).bind (dfsFields g fuel fs)
    | .union args => (dfsArgs g fuel args deps).bind (dfsFields g fuel fs)
    | .iterable args => (dfsArgs g fuel args deps).bind (dfsFields g fuel fs)

/-- The `for _type in type_args: dfs(_type)` loops for `Union` and iterable
annotations. -/
def dfsArgs (g : Nat → List FieldAnn) : Nat → List TypeArg → List Nat → Option (List Nat)
  | _, [], deps => some deps
  | fuel, t :: ts, deps => (dfsFuel g fuel t deps).bind (dfsArgs g fuel ts)

end

/-- `recursively_search_base_model_dependencies(source_cls)` run with a given
recursion budget: `dfs(source_cls)` from an empty dependency set. -/
def recursivelySearchBaseModelDependencies (g : Nat → List FieldAnn) (fuel : Nat)
    (root : Nat) : Option (List Nat) :=
  dfsFuel g fuel (TypeArg.baseModelCls root) []

/-- The failing input for the cycle claim: one `BaseModel` class `0` whose
single field is annotated `Optional[Self]`, i.e. `Union[Self, NoneType]`. -/
def cyclicGraph : Nat → List FieldAnn :=
  fun _ => [FieldAnn.union [TypeArg.baseModelCls 0, TypeArg.otherCls]]

/-! ## Command executor: `py_gpt/python_code_interpreter/command_executor.py`

The executor owns at most one `subprocess.Popen` handle.  One run of the
operating system is abstracted by `SpawnBehavior`: either `Popen` raises
(`fail err`, the error is only logged), or it yields a process handle and
the line sequences that will be read from its standard output and standard
error pipes.  Emissions on `log_behavior_subject` and `exception_signal`
and calls to `process.kill` / `process.terminate` are recorded in the
state. -/

inductive SpawnBehavior where
  | fail (err : String)
  | ok (pid : Nat) (outLines errLines : List String)
  deriving Repr, DecidableEq

structure ExecutorState where
  process : Option Nat
  should_kill : Bool
  is_executing : Bool
  stdout_queue : List String
  stderr_queue : List String
  logEmissions : List String
  exceptionEmissions : List String
  killCalls : Nat
  terminateCalls : Nat
  deriving Repr, DecidableEq

/-- `CommandExecutor.__init__` (the source initialises `is_executing` to
`True` even though nothing is running yet). -/
def ExecutorState.init : ExecutorState :=
  { process := none, should_kill := false, is_executing := true
    stdout_queue := [], stderr_queue := [], logEmissions := []
    exceptionEmissions := [], killCalls := 0, terminateCalls := 0 }

/-- `CommandExecutor._handle_kill_process`: terminate the process when the
kill flag is up, then lower the flag. -/
def handleKillProcess (st : ExecutorState) : ExecutorState :=
  if st.process = none then st
  else if st.should_kill = false then st
  else { st with terminateCalls := st.terminateCalls + 1, should_kill := false }

/-- One iteration of the stdout loop of `CommandExecutor._flush_output`:
strip the line, publish it on the log subject, append it to the queue,
then poll the kill flag. -/
def flushStdoutLine (st : ExecutorState) (line : String) : ExecutorState :=
  let stripped := line.trim
  handleKillProcess
    { st with logEmissions := st.logEmissions ++ [stripped],
              stdout_queue := st.stdout_queue ++ [stripped] }

/-- One iteration of the stderr loop of `_flush_output`: the raw line is
queued and published, the stripped line is accumulated into `error`. -/
def flushStderrLine (acc : ExecutorState × String) (line : String) :
    ExecutorState × String :=
  let st := acc.1
  ({ st with stderr_queue := st.stderr_queue ++ [line],
             logEmissions := st.logEmissions ++ [line] },
   acc.2 ++ line.trim)

/-- `CommandExecutor._flush_output`: drain stdout, then drain stderr while
accumulating an error string that is finally published on the log subject
and on `exception_signal` (even when empty), followed by a kill poll. -/
def flushOutput (outLines errLines : List String) (st : ExecutorState) : ExecutorState :=
  if st.process = none then st
  else
    let st1 := outLines.foldl flushStdoutLine st
    let (st2, error) := errLines.foldl flushStderrLine (st1, "")
    handleKillProcess
      { st2 with logEmissions := st2.logEmissions ++ [error],
                 exceptionEmissions := st2.exceptionEmissions ++ [error] }

/-- `CommandExecutor._init_popen`: raise the in-flight flag, spawn, flush
the pipes, return `True`; when `Popen` raises, the exception is logged and
`False` is returned; the `finally` clause lowers the in-flight flag on both
paths.  On the failing path `self.process` is left untouched. -/
def initPopen (b : SpawnBehavior) (st : ExecutorState) : Bool × ExecutorState :=
  match b with
  | .fail _ => (false, { st with is_executing := false })
  | .ok pid outLines errLines =>
    let st1 := { st with is_executing := true, process := some pid }
    let st2 := flushOutput outLines errLines st1
    (true, { st2 with is_executing := false })

/-- `CommandExecutor.execute`: a non-`None` process handle kills the handle
and refuses the request; otherwise the spawn runs, either on a worker
thread (the call returns `True` at once; the thread's effects are
linearised into the returned state) or synchronously. -/
def ExecutorState.execute (st : ExecutorState) (_command : String)
    (b : SpawnBehavior) (isAsyncExecution : Bool) : Bool × ExecutorState :=
  if st.process.isSome then
    (false, { st with killCalls := st.killCalls + 1 })
  else if isAsyncExecution then
    (true, (initPopen b st).2)
  else
    initPopen b st

/-! ## JSON values: a model of Python `json.loads` restricted to the flat
objects exchanged through the session protocol.

Modelled from the spec: `json.loads` is the Python standard library (not
repository code); the session delimiter protocol wraps "a single JSON
object" of key→value pairs, so the model parses one object literal whose
keys are strings and whose values are integers or strings, with JSON
whitespace allowed everywhere the grammar allows it and the whole input
consumed.  `none` stands for `json.JSONDecodeError`. -/

inductive JVal where
  | jnum (n : Int)
  | jstr (s : String)
  deriving Repr, DecidableEq

def jsonWs (c : Char) : Bool :=
  c = ' ' || c = '\n' || c = '\t' || c = '\r'

def skipWs : List Char → List Char
  | [] => []
  | c :: cs => if jsonWs c then skipWs cs else c :: cs

/-- Scan a string literal body up to the closing quote (escape sequences are
outside the modelled fragment). -/
def scanStr : List Char → Option (List Char × List Char)
  | [] => none
  | c :: cs =>
    if c = '"' then some ([], cs)
    else (scanStr cs).map (fun p => (c :: p.1, p.2))

def takeDigits : List Char → List Char × List Char
  | [] => ([], [])
  | c :: cs =>
    if c.isDigit then
      let p := takeDigits cs
      (c :: p.1, p.2)
    else ([], c :: cs)

def digitsToNat (ds : List Char) : Nat :=
  ds.foldl (fun acc c => acc * 10 + (c.toNat - 48)) 0

def parseJsonValue : List Char → Option (JVal × List Char)
  | [] => none
  | c :: cs =>
    if c = '"' then
      (scanStr cs).map (fun p => (JVal.jstr (String.mk p.1), p.2))
    else if c = '-' then
      match takeDigits cs with
      | ([], _) => none
      | (ds, rest) => some (JVal.jnum (-(digitsToNat ds : Int)), rest)
    else if c.isDigit then
      match takeDigits (c :: cs) with
      | (ds, rest) => some (JVal.jnum (digitsToNat ds), rest)
    else none

/-- Parse `"key" : value` pairs separated by commas, ending at `}`; `fuel`
bounds the member count by the input length. -/
def parseJsonMembers : Nat → List Char → Option (List (String × JVal) × List Char)
  | 0, _ => none
  | Nat.succ fuel, l =>
    match skipWs l with
    | [] => none
    | c :: cs =>
      if c = '"' then
        match scanStr cs with
        | none => none
        | some (key, rest1) =>
          match skipWs rest1 with
          | ':' :: rest2 =>
            match parseJsonValue (skipWs rest2) with
            | none => none
            | some (v, rest3) =>
              match skipWs rest3 with
              | ',' :: rest4 =>
                (parseJsonMembers fuel rest4).map
                  (fun p => ((String.mk key, v) :: p.1, p.2))
              | '}' :: rest4 => some ([(String.mk key, v)], rest4)
              | _ => none
          | _ => none
      else none

/-- `json.loads` on the modelled fragment: one object literal, whole input
consumed up to trailing whitespace. -/
def jsonLoads (l : List Char) : Option (List (String × JVal)) :=
  match skipWs l with
  | '{' :: rest =>
    match skipWs rest with
    | '}' :: tail => if skipWs tail = [] then some [] else none
    | _ =>
      match parseJsonMembers l.length rest with
      | none => none
      | some (members, tail) => if skipWs tail = [] then some members else none
  | _ => none

/-! ## Session extraction:
`py_gpt/python_code_interpreter/python_code_interpreter.py`

`__parse_session_stdout` runs `re.search` with the pattern
`<session>(.*?)</session>` (no `DOTALL` flag, so `.` never matches a line
break), strips every occurrence of the two marker literals from the whole
matched text with `str.replace`, and hands the remainder to `json.loads`;
no match yields the empty mapping. -/

def startMarker : List Char := "<session>".toList

def endMarker : List Char := "</session>".toList

/-- The non-greedy `(.*?)</session>` tail of the pattern at a fixed start:
succeed with the shortest inner text ending at the first `</session>`; a
line break before it makes the whole attempt fail, as `.` cannot cross it. -/
def tryInner : List Char → Option (List Char)
  | [] => none
  | c :: cs =>
    if endMarker.isPrefixOf (c :: cs) then some []
    else if c = '\n' then none
    else (tryInner cs).map (fun inner => c :: inner)

/-- `re.search`: the leftmost start position where the whole pattern
matches; the inner group of that match is returned. -/
def sessionSearch : List Char → Option (List Char)
  | [] => none
  | c :: cs =>
    if startMarker.isPrefixOf (c :: cs) then
      match tryInner (List.drop startMarker.length (c :: cs)) with
      | some inner => some inner
      | none => sessionSearch cs
    else sessionSearch cs

/-- `str.replace(pat, "")`: delete the leftmost occurrence of `pat`,
repeatedly, scanning left to right; `fuel` is the input length. -/
def removeOcc (pat : List Char) : Nat → List Char → List Char
  | 0, l => l
  | Nat.succ _, [] => []
  | Nat.succ fuel, c :: cs =>
    if pat.isPrefixOf (c :: cs) then removeOcc pat fuel (List.drop pat.length (c :: cs))
    else c :: removeOcc pat fuel cs

def removeAllSub (pat l : List Char) : List Char :=
  removeOcc pat l.length l

/-- `PythonCodeInterpreter.__parse_session_stdout`: search for the pattern;
on a match take the whole matched text (`match.group()`), drop every
`<session>` and `</session>` literal from it, and `json.loads` the rest (a
decode failure propagates as an exception, modelled by `Except.error`);
without a match return the empty mapping. -/
def parseSessionStdout (stdout : String) : Except String (List (String × JVal)) :=
  match sessionSearch stdout.toList with
  | none => Except.ok []
  | some inner =>
    let content := startMarker ++ inner ++ endMarker
    let stripped := removeAllSub endMarker (removeAllSub startMarker content)
    match jsonLoads stripped with
    | none => Except.error "json.decoder.JSONDecodeError"
    | some members => Except.ok members

/-- A second definition written from the spec's words, for comparison with
the source's search: "the JSON object enclosed in the first
`<session>`...`</session>` marker pair" — the first `<session>` occurrence
that is followed by a `</session>`, with the enclosed text running to the
nearest closing marker and nothing barring line breaks. -/
def specTryInner : List Char → Option (List Char)
  | [] => none
  | c :: cs =>
    if endMarker.isPrefixOf (c :: cs) then some []
    else (specTryInner cs).map (fun inner => c :: inner)

/-- The spec-side "first marker pair": leftmost `<session>` with a matching
`</session>` anywhere after it. -/
def specFirstMarkerInner : List Char → Option (List Char)
  | [] => none
  | c :: cs =>
    if startMarker.isPrefixOf (c :: cs) then
      match specTryInner (List.drop startMarker.length (c :: cs)) with
      | some inner => some inner
      | none => specFirstMarkerInner cs
    else specFirstMarkerInner cs

/-! ## Interpreter: `python_code_interpreter.py` (continued)

`PythonSource` is the generated code plus its stated intent.
`InterpreterResponse` is the (pydantic) result record; `is_successful` is
its computed field.  The file system visible to the interpreter is the set
of existing paths, as a list. -/

structure PythonSource where
  code : String
  intent : String
  deriving Repr, DecidableEq

structure InterpreterResponse where
  response_id : String
  source : PythonSource
  code_executed : String
  stdout : String := ""
  stderr : String := ""
  session : List (String × JVal)
  deriving Repr, DecidableEq

/-- `InterpreterResponse.is_successful`: `len(self.stderr) == 0`. -/
def InterpreterResponse.is_successful (r : InterpreterResponse) : Bool :=
  r.stderr.length == 0

/-- `common_utils.inject_decorator_for_source_code`'s pattern
`^\s*def\s+\w+\s*\(`: leading whitespace, the keyword `def`, at least one
space, a word, optional spaces, an opening parenthesis. -/
def matchesDefPattern (l : List Char) : Bool :=
  let afterWs := l.dropWhile (fun c => c = ' ' || c = '\t')
  match afterWs with
  | 'd' :: 'e' :: 'f' :: rest =>
    let ws := rest.takeWhile (fun c => c = ' ' || c = '\t')
    let afterSp := rest.dropWhile (fun c => c = ' ' || c = '\t')
    let word := afterSp.takeWhile (fun c => c.isAlphanum || c = '_')
    let afterWord := afterSp.dropWhile (fun c => c.isAlphanum || c = '_')
    let afterWord2 := afterWord.dropWhile (fun c => c = ' ' || c = '\t')
    decide (ws ≠ []) && decide (word ≠ []) &&
      (match afterWord2 with | '(' :: _ => true | _ => false)
  | _ => false

/-- `common_utils.inject_decorator_for_source_code`: put an
`@inject_locals_decorator` line above every function definition line and
join on line breaks. -/
def injectDecoratorForSourceCode (lines : List String) (decoratorName : String) : String :=
  let decoratorLine := "@" ++ decoratorName ++ "\n"
  let modified := lines.foldr
    (fun line acc =>
      if matchesDefPattern line.toList then decoratorLine :: line :: acc
      else line :: acc) []
  String.intercalate "\n" modified

/-- The source text of `common_utils.inject_locals_decorator`, read by
`inspect.getsource` and prepended to every executed script (its exact text
never influences the modelled behaviour; it is carried opaquely). -/
def injectLocalsDecoratorSource : String :=
  "def inject_locals_decorator(func): ..."

/-- Modelled from the spec: `CODE_TEMPLATE` lives in
`py_gpt/python_code_interpreter/template.py`, which is not among the given
sources; per the spec the materialised file is the instrumentation preamble
followed by the rewritten body. -/
def codeTemplate (preamble body : String) : String :=
  preamble ++ "\n" ++ body

/-- `PythonCodeInterpreter.handle_init_python_source`. -/
def handleInitPythonSource (source : PythonSource) : String :=
  codeTemplate injectLocalsDecoratorSource
    (injectDecoratorForSourceCode (source.code.splitOn "\n") "inject_locals_decorator")

/-- `PythonCodeInterpreter._create_temp_file`: write `/tmp/<file_name>`. -/
def createTempFile (filePath : String) (fs : List String) : List String :=
  filePath :: fs

/-- `PythonCodeInterpreter._delete_temp_file`: remove the path when it
exists. -/
def deleteTempFile (filePath : String) (fs : List String) : List String :=
  if filePath ∈ fs then fs.filter (fun p => p != filePath) else fs

/-- `PythonCodeInterpreter.PY_COMMAND.format(source_file=file_path)`. -/
def pyCommand (filePath : String) : String :=
  "python3 -u " ++ filePath

/-- `PythonCodeInterpreter.execute_python_source`: rewrite the source,
materialise it under a unique name (`file_name`, a fresh UUID, is a
parameter of the model), run the executor synchronously, delete the file,
join the captured queues, parse the session block, assemble the response.
The file deletion precedes the stdout join and session parse, so even a
session-decode exception leaves the file deleted. -/
def executePythonSource (source : PythonSource) (fileName : String)
    (b : SpawnBehavior) (fs : List String) (ex : ExecutorState) :
    Except String InterpreterResponse × List String × ExecutorState :=
  let finalSourceCode := handleInitPythonSource source
  let filePath := "/tmp/" ++ fileName
  let fs1 := createTempFile filePath fs
  let (_, ex1) := ex.execute (pyCommand filePath) b false
  let fs2 := deleteTempFile filePath fs1
  let stdout := String.intercalate "\n" ex1.stdout_queue
  let stderr := String.intercalate "\n" ex1.stderr_queue
  match parseSessionStdout stdout with
  | Except.error e => (Except.error e, fs2, ex1)
  | Except.ok session =>
    (Except.ok
      { response_id := fileName, source := source, code_executed := finalSourceCode
        stdout := stdout, stderr := stderr, session := session },
     fs2, ex1)

/-! ## Structured-generation protocol:
`core/smart_base_model/smart_base_model.py`

The model client (`llm.async_chat`) is external; one run of it is
abstracted as the chunk list yielded by each successive invocation, given
as `streams : Nat → List StreamChunkMessageDict`.  Likewise pydantic's
`cls.model_validate_json` is abstracted as
`validate : String → Except String T` (`Except.error` stands for the
raised `ValidationError`, whose text feeds the correction prompt).
Emissions on the class-level `message_subject` are returned as an explicit
list.  `_get_model_with_source_code` (runtime source reflection) is
summarised by the `schemaSource` string it produces. -/

structure StreamChunkMessageDict where
  content : String
  is_final_word : Bool
  deriving Repr, DecidableEq

structure MessageSubjectResponse where
  id : String
  chunk_message : StreamChunkMessageDict
  deriving Repr, DecidableEq

structure ScratchPad where
  prompt : String
  schema_reference : String
  current_response : String
  error : String
  deriving Repr, DecidableEq

/-- `ScratchPad.as_text`: the f-string template, indentation included. -/
def ScratchPad.as_text (p : ScratchPad) : String :=
  "\n            Original Prompt: " ++ p.prompt ++
  "\n            Schema: \n                " ++ p.schema_reference ++
  "\n            Response: \n                " ++ p.current_response ++
  "\n            Error:\n                " ++ p.error ++ "\n        "

/-- `ERROR_CORRECTION_PROMPT.format(error=error)` from
`prompts/model_prompts.py`. -/
def errorCorrectionPrompt (error : String) : String :=
  "\nEncountered an error: " ++ error ++ ". \n" ++
  "Correct it according to the prompt's requirements and reference for current response (if it is a valid json for provided schema, otherwise, ignore it) for your future steps. \n" ++
  "Ensure your response aligns with the prompt and return it in JSON format that can be directly modeled by the program.\n"

/-- `SmartBaseModel._MAX_ATTEMPT`. -/
def MAX_ATTEMPT : Nat := 5

/-- `SmartBaseModel.model_ask_json` given the chunk stream of this one
invocation: every received chunk is published as `{id, chunk_message}` on
`message_subject`; after the loop the loop variable `chunk` is published
once more and its `content` returned.  On an empty stream the loop binds
nothing, so the trailing `cls.message_subject.next(...)` raises
`NameError`, which the enclosing `except` turns into a `None` return — so
nothing is emitted at all.  (The same `except` also covers reflection
failures in `_get_model_with_source_code`, which the model leaves out of
scope.)  Returns the candidate text and the emission list. -/
def modelAskJson (responseId : String) (chunks : List StreamChunkMessageDict) :
    Option String × List MessageSubjectResponse :=
  match chunks.getLast? with
  | none => (none, [])
  | some lastChunk =>
    (some lastChunk.content,
     chunks.map (fun c => { id := responseId, chunk_message := c }) ++
       [{ id := responseId, chunk_message := lastChunk }])

/-- The inner `model_ask_wrapper` of `SmartBaseModel.model_ask`.  One call
invokes `model_ask_json` once; `None` returns at once; a candidate that
validates returns the parsed value; a `ValidationError` rewrites the
scratch pad (`error` from the correction template, `current_response` from
the candidate), bumps the attempt counter and either gives up past
`_MAX_ATTEMPT` or recurses.  Alongside the result the model returns the
total invocation count, the emission trace and the final scratch pad. -/
def modelAskWrapper {T : Type} (streams : Nat → List StreamChunkMessageDict)
    (validate : String → Except String T) (responseId : String)
    (pad : ScratchPad) (currentAttempt invocs : Nat)
    (ems : List MessageSubjectResponse) :
    Option T × Nat × List MessageSubjectResponse × ScratchPad :=
  let res := modelAskJson responseId (streams invocs)
  let invocs1 := invocs + 1
  let ems1 := ems ++ res.2
  match res.1 with
  | none => (none, invocs1, ems1, pad)
  | some jsonResponse =>
    match validate jsonResponse with
    | Except.ok v => (some v, invocs1, ems1, pad)
    | Except.error err =>
      let pad1 := { pad with error := errorCorrectionPrompt err,
                             current_response := jsonResponse }
      let attempt1 := currentAttempt + 1
      if _h : attempt1 > MAX_ATTEMPT then (none, invocs1, ems1, pad1)
      else modelAskWrapper streams validate responseId pad1 attempt1 invocs1 ems1
termination_by MAX_ATTEMPT + 1 - currentAttempt
decreasing_by simp only [MAX_ATTEMPT] at *; omega

/-- `SmartBaseModel.model_ask`: build the initial scratch pad (empty error
and response, the reflected schema text, the caller's prompt) and run the
wrapper from attempt `0`. -/
def modelAsk {T : Type} (streams : Nat → List StreamChunkMessageDict)
    (validate : String → Except String T) (responseId schemaSource prompt : String) :
    Option T × Nat × List MessageSubjectResponse × ScratchPad :=
  modelAskWrapper streams validate responseId
    { prompt := prompt, schema_reference := schemaSource,
      current_response := "", error := "" } 0 0 []

/-- The candidate text of one stream: the `content` of its last chunk. -/
def candidateContent (chunks : List StreamChunkMessageDict) : String :=
  match chunks.getLast? with
  | none => ""
  | some c => c.content

/-! ### Concrete instances used by witnesses and counterexamples -/

/-- A spawn-failure run of the interpreter on a fresh executor. -/
def spawnFailRun : Except String InterpreterResponse × List String × ExecutorState :=
  executePythonSource { code := "x = 1", intent := "demo" } "tmpid"
    (SpawnBehavior.fail "OSError") [] ExecutorState.init

/-- A stdout whose only marker pair encloses a JSON object spanning two
lines. -/
def multilineStdout : String := "<session>\n\x7b\"x\":1\x7d</session>"

/-- The three-chunk stream of the streaming claim. -/
def chunksABC : List StreamChunkMessageDict :=
  [{ content := "a", is_final_word := false },
   { content := "ab", is_final_word := false },
   { content := "abc", is_final_word := true }]

/-- A stub client that always yields one chunk of unparsable text. -/
def failStreams : Nat → List StreamChunkMessageDict :=
  fun _ => [{ content := "bad", is_final_word := true }]

/-- A stub validator that always raises. -/
def failValidate : String → Except String String :=
  fun _ => Except.error "ValidationError"

/-! ## Theorems -/

/-! ### C1 — cycle handling of the schema closure -/

/-- C1: the claim says that on a cyclic schema graph
`recursively_search_base_model_dependencies` terminates, set membership
being the cycle guard.  The source has no such guard: `dfs` re-enters a
class it has already added.  On the one-class graph whose field is
`Optional[Self]`, the traversal exhausts every recursion budget — from any
starting dependency set — so the computation never completes (in Python, a
`RecursionError`). -/
theorem dfs_cyclic_never_terminates (fuel : Nat) (deps : List Nat) :
    dfsFuel cyclicGraph fuel (TypeArg.baseModelCls 0) deps = none ∧
    recursivelySearchBaseModelDependencies cyclicGraph fuel 0 = none := by
  have main : ∀ f d, dfsFuel cyclicGraph f (TypeArg.baseModelCls 0) d = none := by
    intro f
    induction f with
    | zero => intro d; simp [dfsFuel]
    | succ n ih =>
      intro d
      simp [dfsFuel, cyclicGraph, dfsFields, dfsArgs, ih]
  exact ⟨main fuel deps, main fuel []⟩

/-! ### C3 — replay on subscription -/

/-- C3: the claim (and the class's own docstring) says subscribing after an
emission replays the held value to the new subscriber.  Evaluated at the
failing input — `next 1` then `subscribe 7` — the source's `subscribe`
merely appends the callback: no delivery happens, although the subject
still holds the value `1` and has registered subscriber `7`. -/
theorem subscribe_does_not_replay_value :
    (((BehaviorSubjectState.init Nat).next 1).1.subscribe 7).2 = [] ∧
    (((BehaviorSubjectState.init Nat).next 1).1.subscribe 7).1.value = some 1 ∧
    (((BehaviorSubjectState.init Nat).next 1).1.subscribe 7).1.subscribers = [7] := by
  decide

/-! ### C7 — the derived success flag -/

/-- C7: `InterpreterResponse.is_successful` is true exactly when the
captured standard error is the empty string, and replacing the standard
output leaves it unchanged. -/
theorem is_successful_iff_stderr_empty (r : InterpreterResponse) (s : String) :
    (r.is_successful = true ↔ r.stderr = "") ∧
    ({ r with stdout := s } : InterpreterResponse).is_successful = r.is_successful := by
  refine ⟨?_, rfl⟩
  rw [InterpreterResponse.is_successful, beq_iff_eq]
  cases h : r.stderr with
  | mk data => simp [String.length, String.ext_iff]

/-! ### C9 — temporary-file cleanup -/

/-- Filtering a value out of a list leaves a list that does not contain
it. -/
theorem contains_filter_ne_false (l : List String) (x : String) :
    (l.filter (fun p => p != x)).contains x = false := by
  simp [List.contains]

/-- C9: whatever the spawn behaviour, the file system returned by
`execute_python_source` no longer holds the temporary source file
`/tmp/<file_name>`: the unconditional `_delete_temp_file` runs before the
session parse, and nothing re-creates the path. -/
theorem temp_file_deleted_after_execution (source : PythonSource) (fileName : String)
    (b : SpawnBehavior) (fs : List String) (ex : ExecutorState) :
    ((executePythonSource source fileName b fs ex).2.1).contains ("/tmp/" ++ fileName) = false := by
  unfold executePythonSource
  simp only [deleteTempFile, createTempFile]
  cases parseSessionStdout (String.intercalate "\n"
      (ex.execute (pyCommand ("/tmp/" ++ fileName)) b false).2.stdout_queue) with
  | error e =>
    simp [List.mem_cons, contains_filter_ne_false]
  | ok session =>
    simp [List.mem_cons, contains_filter_ne_false]

/-! ### C10 — the executor is single-use -/

theorem handleKillProcess_process (st : ExecutorState) :
    (handleKillProcess st).process = st.process := by
  unfold handleKillProcess
  split <;> try rfl
  split <;> rfl

theorem foldl_flushStdoutLine_process (lines : List String) (st : ExecutorState) :
    (lines.foldl flushStdoutLine st).process = st.process := by
  induction lines generalizing st with
  | nil => rfl
  | cons l ls ih => rw [List.foldl_cons, ih, flushStdoutLine, handleKillProcess_process]

theorem foldl_flushStderrLine_process (lines : List String) (acc : ExecutorState × String) :
    ((lines.foldl flushStderrLine acc).1).process = acc.1.process := by
  induction lines generalizing acc with
  | nil => rfl
  | cons l ls ih => rw [List.foldl_cons, ih, flushStderrLine]

theorem flushOutput_process (outLines errLines : List String) (st : ExecutorState) :
    (flushOutput outLines errLines st).process = st.process := by
  unfold flushOutput
  split
  · rfl
  · rw [handleKillProcess_process]
    have h2 := foldl_flushStderrLine_process errLines (outLines.foldl flushStdoutLine st, "")
    have h1 := foldl_flushStdoutLine_process outLines st
    simp only at h2 ⊢
    exact h2.trans h1

/-- C10: (a) a call on an executor whose handle is set kills the handle,
returns `False` and changes nothing else — in particular it spawns
nothing; (b) no call ever resets a set handle back to `None`; (c) a
successful spawn does set the handle.  Together: after one successful
`execute`, every later `execute` on the instance refuses, so the
at-most-one-in-flight policy is in fact at-most-one-execution-ever. -/
theorem executor_at_most_one_execution_ever (st : ExecutorState) (cmd : String)
    (b : SpawnBehavior) (isAsync : Bool) (pid : Nat) (outLines errLines : List String) :
    (st.process = some pid →
      st.execute cmd b isAsync = (false, { st with killCalls := st.killCalls + 1 })) ∧
    ((st.execute cmd b isAsync).2.process = none → st.process = none) ∧
    (st.process = none →
      (st.execute cmd (SpawnBehavior.ok pid outLines errLines) isAsync).2.process = some pid) := by
  refine ⟨?_, ?_, ?_⟩
  · intro h
    unfold ExecutorState.execute
    rw [h]
    rfl
  · intro h
    unfold ExecutorState.execute at h
    by_cases hp : st.process.isSome
    · simp only [hp, if_true] at h
      simp_all
    · simp only [Option.not_isSome_iff_eq_none] at hp
      exact hp
  · intro h
    have hp : st.process.isSome = false := by simp [h]
    cases isAsync <;>
      simp [ExecutorState.execute, initPopen, hp, flushOutput_process]

/-- Witness for C10 at a concrete state: an executor whose handle is `42`
refuses a new request and keeps its handle, and on a fresh executor a
successful spawn installs the handle. -/
theorem executor_at_most_one_execution_ever_witness :
    ({ ExecutorState.init with process := some 42 }.execute "ls" (SpawnBehavior.ok 7 [] []) false =
      (false, { ExecutorState.init with process := some 42, killCalls := 1 })) ∧
    (ExecutorState.init.execute "ls" (SpawnBehavior.ok 7 [] []) false).2.process = some 7 := by
  constructor
  · exact (executor_at_most_one_execution_ever
      { ExecutorState.init with process := some 42 } "ls" (SpawnBehavior.ok 7 [] []) false 42 [] []).1 rfl
  · exact (executor_at_most_one_execution_ever
      ExecutorState.init "ls" (SpawnBehavior.ok 7 [] []) false 7 [] []).2.2 rfl

/-! ### C2 — spawn-failure reporting -/

/-- C2 counterexample: the claim says a spawn failure surfaces as an
`InterpreterResponse` with the spawn-error text in `stderr` and
`is_successful = false`.  Evaluated on a fresh executor whose `Popen`
raises `"OSError"`: `_init_popen` only logs the exception and returns
`False`, `execute_python_source` ignores that return value, both queues
stay empty, so the response carries empty stdout, empty stderr — and
`is_successful = true`. -/
theorem spawn_failure_reports_success_cex :
    spawnFailRun.1.toOption.map (fun r => (r.stdout, r.stderr, r.is_successful)) =
      some ("", "", true) ∧
    (spawnFailRun.1.toOption.map (fun r => r.is_successful) == some false) = false := by
  exact ⟨by decide, by decide⟩

/-- C2 amended: on any executor with no live process and empty capture
queues, a spawn failure still yields a normally returned
`InterpreterResponse` (no exception reaches the caller) whose stdout and
stderr are both empty — hence `is_successful = true`; the spawn-error text
appears nowhere in the response, being only logged. -/
theorem spawn_failure_response_fields (source : PythonSource) (fileName err : String)
    (fs : List String) (ex : ExecutorState)
    (h1 : ex.process = none) (h2 : ex.stdout_queue = []) (h3 : ex.stderr_queue = []) :
    (executePythonSource source fileName (SpawnBehavior.fail err) fs ex).1 =
      Except.ok { response_id := fileName, source := source,
                  code_executed := handleInitPythonSource source,
                  stdout := "", stderr := "", session := [] } ∧
    (executePythonSource source fileName (SpawnBehavior.fail err) fs ex).1.toOption.map
      (fun r => r.is_successful) = some true := by
  have hp : ex.process.isSome = false := by simp [h1]
  have hmain : (executePythonSource source fileName (SpawnBehavior.fail err) fs ex).1 =
      Except.ok { response_id := fileName, source := source,
                  code_executed := handleInitPythonSource source,
                  stdout := "", stderr := "", session := [] } := by
    unfold executePythonSource
    simp only [ExecutorState.execute, hp, Bool.false_eq_true, if_false, initPopen, h2, h3]
    rfl
  refine ⟨hmain, ?_⟩
  rw [hmain]
  rfl

/-- Witness for C2's amended statement on a fresh executor. -/
theorem spawn_failure_response_fields_witness :
    (executePythonSource { code := "x = 1", intent := "demo" } "tmpid"
        (SpawnBehavior.fail "OSError") [] ExecutorState.init).1 =
      Except.ok { response_id := "tmpid", source := { code := "x = 1", intent := "demo" },
                  code_executed := handleInitPythonSource { code := "x = 1", intent := "demo" },
                  stdout := "", stderr := "", session := [] } :=
  (spawn_failure_response_fields { code := "x = 1", intent := "demo" } "tmpid" "OSError"
    [] ExecutorState.init rfl rfl rfl).1

/-! ### C8 — session extraction -/

/-- C8 counterexample: the claim says extraction returns the JSON object
enclosed in the first marker pair for every stdout.  On a stdout whose
only marker pair encloses a JSON object spanning two lines, the pair
exists (`specFirstMarkerInner` finds it) and its enclosed text parses as
the mapping `x ↦ 1`, yet the source's `re.search` — whose `.` cannot cross
a line break — misses it and the extraction returns the empty mapping. -/
theorem multiline_session_block_missed_cex :
    specFirstMarkerInner multilineStdout.toList = some "\n\x7b\"x\":1\x7d".toList ∧
    jsonLoads "\n\x7b\"x\":1\x7d".toList = some [("x", JVal.jnum 1)] ∧
    parseSessionStdout multilineStdout = Except.ok [] := by
  refine ⟨by decide, by decide, rfl⟩

/-- A successful match of the source's inner scan is a successful match of
the spec-side scan (which also crosses line breaks). -/
theorem tryInner_some_spec (l i : List Char) (h : tryInner l = some i) :
    ∃ j, specTryInner l = some j := by
  induction l generalizing i with
  | nil => simp [tryInner] at h
  | cons c cs ih =>
    rw [tryInner] at h
    by_cases he : endMarker.isPrefixOf (c :: cs)
    · exact ⟨[], by rw [specTryInner, if_pos he]⟩
    · rw [if_neg he] at h
      by_cases hn : c = '\n'
      · rw [if_pos hn] at h
        cases h
      · rw [if_neg hn] at h
        cases hc : tryInner cs with
        | none => simp [hc] at h
        | some i2 =>
          obtain ⟨j, hj⟩ := ih i2 hc
          refine ⟨c :: j, ?_⟩
          rw [specTryInner, if_neg he, hj]
          rfl

/-- When the source's search finds a session block, so does the spec-side
"first marker pair" search. -/
theorem sessionSearch_some_spec (l i : List Char) (h : sessionSearch l = some i) :
    ∃ j, specFirstMarkerInner l = some j := by
  induction l generalizing i with
  | nil => simp [sessionSearch] at h
  | cons c cs ih =>
    rw [sessionSearch] at h
    by_cases hs : startMarker.isPrefixOf (c :: cs)
    · rw [if_pos hs] at h
      cases hc : tryInner (List.drop startMarker.length (c :: cs)) with
      | some inner =>
        obtain ⟨j, hj⟩ := tryInner_some_spec _ _ hc
        refine ⟨j, ?_⟩
        rw [specFirstMarkerInner, if_pos hs, hj]
      | none =>
        simp only [hc] at h
        obtain ⟨j, hj⟩ := ih i h
        cases hsp : specTryInner (List.drop startMarker.length (c :: cs)) with
        | some j2 =>
          refine ⟨j2, ?_⟩
          rw [specFirstMarkerInner, if_pos hs, hsp]
        | none =>
          refine ⟨j, ?_⟩
          rw [specFirstMarkerInner, if_pos hs, hsp]
          exact hj
    · rw [if_neg hs] at h
      obtain ⟨j, hj⟩ := ih i h
      refine ⟨j, ?_⟩
      rw [specFirstMarkerInner, if_neg hs]
      exact hj

/-- A prefix of an append either fits inside the first part or straddles
into the second: `pat = v ++ tail.take (pat.length - v.length)`. -/
theorem prefix_append_split (pat v tail : List Char) (h : pat <+: v ++ tail) :
    pat <+: v ∨ (v.length < pat.length ∧ pat = v ++ tail.take (pat.length - v.length)) := by
  have heq := List.prefix_iff_eq_take.mp h
  rw [List.take_append_eq_append_take] at heq
  rcases le_or_lt pat.length v.length with hle | hlt
  · left
    have hz : pat.length - v.length = 0 := by omega
    rw [hz, List.take_zero, List.append_nil] at heq
    exact List.prefix_iff_eq_take.mpr heq
  · right
    refine ⟨hlt, ?_⟩
    rw [List.take_of_length_le (by omega)] at heq
    exact heq

/-- A marker cannot begin at a position inside `v` (a suffix of a string
the marker does not occur in) even with `tail` appended, as long as every
straddling split of the marker is refuted. -/
theorem pat_not_prefix_of_suffix_append (pat o v tail : List Char)
    (hv : v ≠ []) (hs : v <:+ o) (hinf : ¬ pat <:+: o)
    (hcross : ∀ m, m < pat.length → 1 ≤ m → pat.drop m ≠ tail.take (pat.length - m)) :
    pat.isPrefixOf (v ++ tail) = false := by
  by_contra hc
  rw [Bool.not_eq_false, List.isPrefixOf_iff_prefix] at hc
  rcases prefix_append_split pat v tail hc with hpre | ⟨hlt, heq⟩
  · obtain ⟨u, hu⟩ := hs
    obtain ⟨r, hr⟩ := hpre
    exact hinf ⟨u, r, by rw [← hu, ← hr]; simp [List.append_assoc]⟩
  · have hd : pat.drop v.length = tail.take (pat.length - v.length) := by
      have hcg := congrArg (List.drop v.length) heq
      rwa [List.drop_left] at hcg
    exact hcross v.length hlt (List.length_pos.mpr hv) hd

/-- `</session>` has no border: no proper nonempty suffix of it is one of
its prefixes. -/
theorem emBorder : ∀ m, m < endMarker.length → 1 ≤ m →
    endMarker.drop m ≠ endMarker.take (endMarker.length - m) := by decide

/-- `<session>` has no border. -/
theorem smBorder : ∀ m, m < startMarker.length → 1 ≤ m →
    startMarker.drop m ≠ startMarker.take (startMarker.length - m) := by decide

/-- No proper suffix of `<session>` is a prefix of `</session>`. -/
theorem smEmCross : ∀ m, m < startMarker.length → 1 ≤ m →
    startMarker.drop m ≠ endMarker.take (startMarker.length - m) := by decide

/-- `<session>` begins at no position of `</session>`. -/
theorem smInEm : ∀ j, j < endMarker.length →
    startMarker.isPrefixOf (endMarker.drop j) = false := by decide

theorem emCross_append (c : List Char) : ∀ m, m < endMarker.length → 1 ≤ m →
    endMarker.drop m ≠ (endMarker ++ c).take (endMarker.length - m) := by
  intro m hm h1
  rw [List.take_append_of_le_length (Nat.sub_le _ _)]
  exact emBorder m hm h1

theorem smCross_append (rest : List Char) : ∀ m, m < startMarker.length → 1 ≤ m →
    startMarker.drop m ≠ (startMarker ++ rest).take (startMarker.length - m) := by
  intro m hm h1
  rw [List.take_append_of_le_length (Nat.sub_le _ _)]
  exact smBorder m hm h1

/-- `str.replace(pat, "")` leaves a string without any occurrence of `pat`
unchanged. -/
theorem removeOcc_no_match (pat : List Char) (fuel : Nat) (l : List Char)
    (h : ∀ j, pat.isPrefixOf (l.drop j) = false) : removeOcc pat fuel l = l := by
  induction fuel generalizing l with
  | zero => rfl
  | succ n ih =>
    cases l with
    | nil => rfl
    | cons c cs =>
      have h0 := h 0
      rw [List.drop_zero] at h0
      rw [removeOcc, h0]
      simp only [Bool.false_eq_true, if_false]
      rw [ih cs (fun j => by have hj := h (j + 1); rwa [List.drop_succ_cons] at hj)]

theorem removeOcc_self (pat : List Char) (fuel : Nat) (hne : pat ≠ []) :
    removeOcc pat (fuel + 1) pat = [] := by
  cases pat with
  | nil => exact absurd rfl hne
  | cons p ps =>
    rw [removeOcc, if_pos (List.isPrefixOf_iff_prefix.mpr (List.prefix_refl _))]
    rw [List.drop_length]
    cases fuel <;> rfl

theorem cons_preserves_occurrence (x : Char) (l1 l2 : List Char) (h : l1 <:+: l2) :
    l1 <:+: (x :: l2) :=
  h.trans (List.suffix_cons x l2).isInfix

/-- `<session>` occurs nowhere in `inner ++ </session>` when it does not
occur in `inner`. -/
theorem noMatch_sm_inner_em (inner : List Char) (hinf : ¬ startMarker <:+: inner) :
    ∀ j, startMarker.isPrefixOf ((inner ++ endMarker).drop j) = false := by
  intro j
  rw [List.drop_append_eq_append_drop]
  rcases Nat.lt_or_ge j inner.length with hj | hj
  · have hz : j - inner.length = 0 := by omega
    rw [hz, List.drop_zero]
    refine pat_not_prefix_of_suffix_append startMarker inner (inner.drop j) endMarker
      ?_ (List.drop_suffix j inner) hinf ?_
    · rw [ne_eq, List.drop_eq_nil_iff]
      omega
    · intro m hm h1
      exact smEmCross m hm h1
  · have hnil : inner.drop j = [] := by rw [List.drop_eq_nil_iff]; omega
    rw [hnil, List.nil_append]
    rcases Nat.lt_or_ge (j - inner.length) endMarker.length with hj2 | hj2
    · exact smInEm (j - inner.length) hj2
    · have hnil2 : endMarker.drop (j - inner.length) = [] := by
        rw [List.drop_eq_nil_iff]; omega
      rw [hnil2]
      decide

/-- The `</session>`-removal pass on `inner ++ </session>` deletes exactly
the trailing marker when the marker does not occur in `inner`. -/
theorem removeOcc_em_inner (inner : List Char) (hE : ¬ endMarker <:+: inner) :
    ∀ fuel, (inner ++ endMarker).length ≤ fuel →
    removeOcc endMarker fuel (inner ++ endMarker) = inner := by
  induction inner with
  | nil =>
    intro fuel hf
    rw [List.nil_append] at hf ⊢
    have h10 : endMarker.length = 10 := by decide
    cases fuel with
    | zero => omega
    | succ n => exact removeOcc_self endMarker n (by decide)
  | cons x xs ih =>
    intro fuel hf
    have hlen : ((x :: xs) ++ endMarker).length = (xs ++ endMarker).length + 1 := by
      simp
    cases fuel with
    | zero => omega
    | succ n =>
      have hfalse : endMarker.isPrefixOf ((x :: xs) ++ endMarker) = false := by
        refine pat_not_prefix_of_suffix_append endMarker (x :: xs) (x :: xs) endMarker
          (by simp) (List.suffix_refl _) hE ?_
        intro m hm h1
        exact emBorder m hm h1
      rw [List.cons_append, removeOcc]
      rw [List.cons_append] at hfalse
      rw [hfalse]
      simp only [Bool.false_eq_true, if_false]
      have hE2 : ¬ endMarker <:+: xs := fun hx => hE (cons_preserves_occurrence x endMarker xs hx)
      rw [ih hE2 n (by omega)]

/-- The marker-stripping of `__parse_session_stdout` recovers exactly the
inner text from the full matched block, when the inner text holds no
marker literal. -/
theorem stripped_content (inner : List Char)
    (hS : ¬ startMarker <:+: inner) (hE : ¬ endMarker <:+: inner) :
    removeAllSub endMarker (removeAllSub startMarker (startMarker ++ inner ++ endMarker)) =
      inner := by
  have hstep1 : removeAllSub startMarker (startMarker ++ inner ++ endMarker) =
      inner ++ endMarker := by
    rw [List.append_assoc, removeAllSub]
    cases hl : startMarker ++ (inner ++ endMarker) with
    | nil => exact absurd hl (by simp [startMarker])
    | cons y ys =>
      have hpre : startMarker.isPrefixOf (y :: ys) = true := by
        rw [← hl]
        exact List.isPrefixOf_iff_prefix.mpr (List.prefix_append _ _)
      have hlen : (y :: ys).length = ys.length + 1 := rfl
      rw [hlen, removeOcc, if_pos hpre, ← hl, List.drop_left]
      exact removeOcc_no_match startMarker _ _ (noMatch_sm_inner_em inner hS)
  rw [hstep1, removeAllSub]
  exact removeOcc_em_inner inner hE _ (Nat.le_refl _)

theorem tryInner_eq_of_em_prefix (l : List Char) (h : endMarker.isPrefixOf l = true) :
    tryInner l = some [] := by
  cases l with
  | nil =>
    rw [show endMarker.isPrefixOf ([] : List Char) = false from by decide] at h
    cases h
  | cons y ys => rw [tryInner, if_pos h]

/-- Completeness of the non-greedy tail of the pattern: single-line,
marker-free inner text is matched in full. -/
theorem tryInner_complete (inner c : List Char)
    (hnl : '\n' ∉ inner) (hinf : ¬ endMarker <:+: inner) :
    tryInner (inner ++ (endMarker ++ c)) = some inner := by
  induction inner with
  | nil =>
    rw [List.nil_append]
    exact tryInner_eq_of_em_prefix _
      (List.isPrefixOf_iff_prefix.mpr (List.prefix_append _ _))
  | cons x xs ih =>
    have hfalse : endMarker.isPrefixOf ((x :: xs) ++ (endMarker ++ c)) = false := by
      refine pat_not_prefix_of_suffix_append endMarker (x :: xs) (x :: xs) (endMarker ++ c)
        (by simp) (List.suffix_refl _) hinf (emCross_append c)
    rw [List.cons_append, tryInner]
    rw [List.cons_append] at hfalse
    rw [hfalse]
    simp only [Bool.false_eq_true, if_false]
    have hx : ¬ x = '\n' := fun hx => hnl (hx ▸ List.mem_cons_self x xs)
    rw [if_neg hx]
    rw [ih (fun hm => hnl (List.mem_cons_of_mem x hm))
        (fun hi => hinf (cons_preserves_occurrence x endMarker xs hi))]
    rfl

theorem sessionSearch_eq_some (l inner : List Char) (h : startMarker.isPrefixOf l = true)
    (ht : tryInner (l.drop startMarker.length) = some inner) :
    sessionSearch l = some inner := by
  cases l with
  | nil =>
    rw [show startMarker.isPrefixOf ([] : List Char) = false from by decide] at h
    cases h
  | cons y ys => rw [sessionSearch, if_pos h, ht]

/-- Completeness of `re.search`: on a stdout whose first `<session>` opens
a pair with single-line, marker-free inner text, the search returns
exactly that inner text. -/
theorem sessionSearch_complete (a inner c : List Char)
    (ha : ¬ startMarker <:+: a) (hnl : '\n' ∉ inner) (hinf : ¬ endMarker <:+: inner) :
    sessionSearch (a ++ (startMarker ++ (inner ++ (endMarker ++ c)))) = some inner := by
  induction a with
  | nil =>
    rw [List.nil_append]
    refine sessionSearch_eq_some _ inner
      (List.isPrefixOf_iff_prefix.mpr (List.prefix_append _ _)) ?_
    rw [List.drop_left]
    exact tryInner_complete inner c hnl hinf
  | cons x a' ih =>
    have hfalse : startMarker.isPrefixOf
        ((x :: a') ++ (startMarker ++ (inner ++ (endMarker ++ c)))) = false := by
      refine pat_not_prefix_of_suffix_append startMarker (x :: a') (x :: a') _
        (by simp) (List.suffix_refl _) ha (smCross_append _)
    rw [List.cons_append, sessionSearch]
    rw [List.cons_append] at hfalse
    rw [hfalse]
    simp only [Bool.false_eq_true, if_false]
    exact ih (fun hi => ha (cons_preserves_occurrence x startMarker a' hi))

/-- `__parse_session_stdout` on a decomposed stdout: the result is exactly
`json.loads` of the enclosed text (a mapping, or a decode error). -/
theorem parse_session_decomposed (s : String) (a inner c : List Char)
    (hs : s.toList = a ++ (startMarker ++ (inner ++ (endMarker ++ c))))
    (ha : ¬ startMarker <:+: a) (hnl : '\n' ∉ inner)
    (hiS : ¬ startMarker <:+: inner) (hiE : ¬ endMarker <:+: inner) :
    parseSessionStdout s =
      match jsonLoads inner with
      | some m => Except.ok m
      | none => Except.error "json.decoder.JSONDecodeError" := by
  rw [parseSessionStdout, hs, sessionSearch_complete a inner c ha hnl hiE]
  simp only [stripped_content inner hiS hiE]
  cases jsonLoads inner <;> rfl

/-- C8 amended: for every stdout that splits as
`a ++ "<session>" ++ inner ++ "</session>" ++ c` around its first marker
pair (no `<session>` occurs in `a`), with `inner` on a single line (the
regex is compiled without DOTALL, so its dot cannot cross a line break and
a pair spanning lines is not found) and free of marker literals: when
`inner` parses as a JSON object the extraction returns that object as a
key-to-value mapping — so stdout `noise<session>(JSON x:1)</session>more`
yields the mapping `x ↦ 1` — and when it does not parse, a JSON decode
error is raised; and for every stdout containing no marker pair at all the
extraction returns the empty mapping without raising an error. -/
theorem session_extraction_amended (s s2 : String) (a inner c : List Char)
    (m : List (String × JVal)) :
    ((s.toList = a ++ (startMarker ++ (inner ++ (endMarker ++ c))) →
      ¬ startMarker <:+: a → '\n' ∉ inner →
      ¬ startMarker <:+: inner → ¬ endMarker <:+: inner →
      (jsonLoads inner = some m → parseSessionStdout s = Except.ok m) ∧
      (jsonLoads inner = none →
        parseSessionStdout s = Except.error "json.decoder.JSONDecodeError"))) ∧
    (specFirstMarkerInner s2.toList = none → parseSessionStdout s2 = Except.ok []) := by
  constructor
  · intro hs ha hnl hiS hiE
    have h := parse_session_decomposed s a inner c hs ha hnl hiS hiE
    constructor
    · intro hj
      rw [h, hj]
    · intro hj
      rw [h, hj]
  · intro hnone
    rw [parseSessionStdout]
    cases hc : sessionSearch s2.toList with
    | none => rfl
    | some i =>
      obtain ⟨j, hj⟩ := sessionSearch_some_spec _ _ hc
      rw [hj] at hnone
      cases hnone

/-- Witness for C8's amended statement: the spec's round-trip input,
decomposed as `noise · <session> · (JSON x:1) · </session> · more`, yields
the mapping `x ↦ 1`; a stdout without any marker yields the empty
mapping. -/
theorem session_extraction_amended_witness :
    parseSessionStdout "noise<session>\x7b\"x\":1\x7d</session>more" =
      Except.ok [("x", JVal.jnum 1)] ∧
    parseSessionStdout "plain output, no markers" = Except.ok [] := by
  constructor
  · exact ((session_extraction_amended "noise<session>\x7b\"x\":1\x7d</session>more"
      "plain output, no markers" "noise".toList "\x7b\"x\":1\x7d".toList "more".toList
      [("x", JVal.jnum 1)]).1 (by decide) (by decide) (by decide) (by decide)
        (by decide)).1 (by decide)
  · exact (session_extraction_amended "x" "plain output, no markers"
      [] [] [] []).2 (by decide)

/-! ### C4, C5, C6 — the generation protocol -/

/-- `model_ask_json` on a non-empty stream, in closed form: the candidate
is the last chunk's content; the emissions are all chunks in arrival order
followed by one duplicate of the last chunk. -/
theorem modelAskJson_cons (rid : String) (c : StreamChunkMessageDict)
    (cs : List StreamChunkMessageDict) :
    modelAskJson rid (c :: cs) =
      (some ((cs.getLast?.getD c).content),
       (c :: cs).map (fun k => { id := rid, chunk_message := k }) ++
         [{ id := rid, chunk_message := cs.getLast?.getD c }]) := by
  rw [modelAskJson, List.getLast?_cons]

theorem modelAskJson_fst_of_ne (rid : String) (l : List StreamChunkMessageDict)
    (h : l ≠ []) :
    (modelAskJson rid l).1 = some (candidateContent l) := by
  cases l with
  | nil => exact absurd rfl h
  | cons c cs => rw [modelAskJson_cons, candidateContent, List.getLast?_cons]

/-- C4 counterexample: the claim says the three-chunk stream `"a"`, `"ab"`,
`"abc"` (last one terminal-flagged) produces exactly three emissions with
the terminal chunk delivered once.  The loop emits each chunk and the
statement after the loop re-emits the loop variable, so the source
produces four emissions, the terminal-flagged chunk appearing twice; the
candidate text is still `"abc"`. -/
theorem three_chunk_stream_four_emissions_cex :
    (modelAskJson "r" chunksABC).1 = some "abc" ∧
    (modelAskJson "r" chunksABC).2.length = 4 ∧
    ((modelAskJson "r" chunksABC).2.countP (fun m => m.chunk_message.is_final_word)) = 2 ∧
    ((modelAskJson "r" chunksABC).2.length == 3) = false := by
  refine ⟨by decide, by decide, by decide, by decide⟩

/-- C4 amended: one `model_ask_json` call on a stream of `n ≥ 1` chunks
publishes `n + 1` emissions — every chunk in arrival order and then the
final chunk once more — so the terminal chunk is delivered exactly twice
per request; the returned candidate text is the final chunk's content. -/
theorem model_ask_json_emission_trace (rid : String) (c : StreamChunkMessageDict)
    (cs : List StreamChunkMessageDict) :
    (modelAskJson rid (c :: cs)).1 = some ((cs.getLast?.getD c).content) ∧
    (modelAskJson rid (c :: cs)).2 =
      (c :: cs).map (fun k => { id := rid, chunk_message := k }) ++
        [{ id := rid, chunk_message := cs.getLast?.getD c }] ∧
    (modelAskJson rid (c :: cs)).2.length = cs.length + 2 := by
  rw [modelAskJson_cons]
  refine ⟨rfl, rfl, ?_⟩
  simp

/-- C5 counterexample: the claim says a zero-chunk stream is recorded in
the scratch pad as a synthesized "empty response" validation failure and
the protocol retries.  Evaluated on a stub yielding no chunks:
`model_ask` returns `none` after exactly one model invocation, with no
emission and the scratch pad's `error` and `current_response` fields still
empty — no synthesized error, no retry. -/
theorem empty_stream_no_retry_cex :
    modelAsk (fun _ => []) (fun _ => (Except.error "e" : Except String String)) "r" "S" "P" =
      (none, 1, [],
       { prompt := "P", schema_reference := "S", current_response := "", error := "" }) := by
  unfold modelAsk
  rw [modelAskWrapper.eq_def]
  rfl

/-- C5 amended: when the first stream yields zero chunks, the trailing
emission statement's unbound loop variable raises inside `model_ask_json`,
which catches it and returns `None`; `model_ask` thereupon returns an
absent result immediately — one model invocation, no emissions, an
untouched scratch pad, no retry. -/
theorem empty_stream_aborts_immediately {T : Type}
    (streams : Nat → List StreamChunkMessageDict)
    (validate : String → Except String T) (rid ss pr : String) (h : streams 0 = []) :
    modelAsk streams validate rid ss pr =
      (none, 1, [],
       { prompt := pr, schema_reference := ss, current_response := "", error := "" }) := by
  unfold modelAsk
  rw [modelAskWrapper.eq_def, h]
  rfl

/-- Witness for C5's amended statement on a concrete zero-chunk stub. -/
theorem empty_stream_aborts_immediately_witness :
    modelAsk (fun _ => []) failValidate "r" "S" "P" =
      (none, 1, [],
       { prompt := "P", schema_reference := "S", current_response := "", error := "" }) :=
  empty_stream_aborts_immediately (fun _ => []) failValidate "r" "S" "P" rfl

/-- Exhaustion lemma for the retry loop: when every invocation's candidate
fails validation, the wrapper started at attempt `attempt` with `n`
attempts left performs exactly `n` further invocations and returns
`none`. -/
theorem wrapper_all_fail {T : Type} (streams : Nat → List StreamChunkMessageDict)
    (validate : String → Except String T) (rid : String)
    (hne : ∀ k, streams k ≠ [])
    (hfail : ∀ k, ∃ e, validate (candidateContent (streams k)) = Except.error e) :
    ∀ n attempt pad invocs ems, 1 ≤ n → attempt + n = MAX_ATTEMPT + 1 →
      (modelAskWrapper streams validate rid pad attempt invocs ems).1 = none ∧
      (modelAskWrapper streams validate rid pad attempt invocs ems).2.1 = invocs + n := by
  intro n
  induction n with
  | zero => intro _ _ _ _ h1 _; omega
  | succ m ih =>
    intro attempt pad invocs ems _ hsum
    obtain ⟨e, he⟩ := hfail invocs
    rw [modelAskWrapper.eq_def]
    simp only [modelAskJson_fst_of_ne rid (streams invocs) (hne invocs), he]
    by_cases hcase : attempt + 1 > MAX_ATTEMPT
    · rw [dif_pos hcase]
      refine ⟨rfl, ?_⟩
      show invocs + 1 = invocs + (m + 1)
      simp only [MAX_ATTEMPT] at hsum hcase
      omega
    · rw [dif_neg hcase]
      have hm : 1 ≤ m := by simp only [MAX_ATTEMPT] at hsum hcase ⊢; omega
      have hsum2 : (attempt + 1) + m = MAX_ATTEMPT + 1 := by omega
      refine ⟨(ih (attempt + 1) _ (invocs + 1) _ hm hsum2).1, ?_⟩
      rw [(ih (attempt + 1) _ (invocs + 1) _ hm hsum2).2]
      omega

/-- Progress lemma for the retry loop: `N` failing candidates followed by a
validating one give the parsed value after `N + 1` invocations, provided
the attempt budget is not exhausted first. -/
theorem wrapper_fail_then_ok {T : Type} (streams : Nat → List StreamChunkMessageDict)
    (validate : String → Except String T) (rid : String)
    (hne : ∀ k, streams k ≠ []) :
    ∀ N attempt pad invocs ems (v : T), attempt + N ≤ MAX_ATTEMPT →
      (∀ k, k < N → ∃ e, validate (candidateContent (streams (invocs + k))) = Except.error e) →
      validate (candidateContent (streams (invocs + N))) = Except.ok v →
      (modelAskWrapper streams validate rid pad attempt invocs ems).1 = some v ∧
      (modelAskWrapper streams validate rid pad attempt invocs ems).2.1 = invocs + N + 1 := by
  intro N
  induction N with
  | zero =>
    intro attempt pad invocs ems v _ _ hok
    rw [modelAskWrapper.eq_def]
    simp only [modelAskJson_fst_of_ne rid (streams invocs) (hne invocs)]
    rw [Nat.add_zero] at hok
    rw [hok]
    exact ⟨rfl, rfl⟩
  | succ m ih =>
    intro attempt pad invocs ems v hle hfail hok
    obtain ⟨e, he⟩ := hfail 0 (Nat.succ_pos m)
    rw [Nat.add_zero] at he
    rw [modelAskWrapper.eq_def]
    simp only [modelAskJson_fst_of_ne rid (streams invocs) (hne invocs), he]
    have hcase : ¬ (attempt + 1 > MAX_ATTEMPT) := by
      simp only [MAX_ATTEMPT] at hle ⊢; omega
    rw [dif_neg hcase]
    have hle2 : (attempt + 1) + m ≤ MAX_ATTEMPT := by omega
    have hfail2 : ∀ k, k < m →
        ∃ e2, validate (candidateContent (streams ((invocs + 1) + k))) = Except.error e2 := by
      intro k hk
      have := hfail (k + 1) (by omega)
      rwa [show invocs + (k + 1) = (invocs + 1) + k by omega] at this
    have hok2 : validate (candidateContent (streams ((invocs + 1) + m))) = Except.ok v := by
      rwa [show invocs + (m + 1) = (invocs + 1) + m by omega] at hok
    refine ⟨(ih (attempt + 1) _ (invocs + 1) _ v hle2 hfail2 hok2).1, ?_⟩
    rw [(ih (attempt + 1) _ (invocs + 1) _ v hle2 hfail2 hok2).2]
    omega

/-- C6: with a client that always yields a candidate failing validation,
`model_ask` makes exactly `_MAX_ATTEMPT + 1 = 6` model invocations and
returns an absent result; with a client failing validation `N ≤ 5` times
and then validating, it returns the parsed value after `N + 1`
invocations. -/
theorem model_ask_retry_bound {T : Type} (streams : Nat → List StreamChunkMessageDict)
    (validate : String → Except String T) (rid ss pr : String)
    (hne : ∀ k, streams k ≠ []) :
    ((∀ k, ∃ e, validate (candidateContent (streams k)) = Except.error e) →
      (modelAsk streams validate rid ss pr).1 = none ∧
      (modelAsk streams validate rid ss pr).2.1 = MAX_ATTEMPT + 1) ∧
    (∀ N v, N ≤ MAX_ATTEMPT →
      (∀ k, k < N → ∃ e, validate (candidateContent (streams k)) = Except.error e) →
      validate (candidateContent (streams N)) = Except.ok v →
      (modelAsk streams validate rid ss pr).1 = some v ∧
      (modelAsk streams validate rid ss pr).2.1 = N + 1) := by
  constructor
  · intro hfail
    have h := wrapper_all_fail streams validate rid hne hfail (MAX_ATTEMPT + 1) 0
      { prompt := pr, schema_reference := ss, current_response := "", error := "" } 0 []
      (by simp [MAX_ATTEMPT]) (by omega)
    unfold modelAsk
    exact ⟨h.1, by rw [h.2]; exact Nat.zero_add _⟩
  · intro N v hN hfail hok
    have hfail2 : ∀ k, k < N →
        ∃ e, validate (candidateContent (streams (0 + k))) = Except.error e := by
      intro k hk; simpa using hfail k hk
    have hok2 : validate (candidateContent (streams (0 + N))) = Except.ok v := by
      simpa using hok
    have h := wrapper_fail_then_ok streams validate rid hne N 0
      { prompt := pr, schema_reference := ss, current_response := "", error := "" } 0 [] v
      (by omega) hfail2 hok2
    unfold modelAsk
    exact ⟨h.1, by rw [h.2]; omega⟩

/-- Witness for C6 on an always-failing stub client: an absent result
after exactly six model invocations. -/
theorem model_ask_retry_bound_witness :
    (modelAsk failStreams failValidate "r" "S" "P").1 = none ∧
    (modelAsk failStreams failValidate "r" "S" "P").2.1 = MAX_ATTEMPT + 1 :=
  (model_ask_retry_bound failStreams failValidate "r" "S" "P"
      (fun _ => by simp [failStreams])).1
    (fun _ => ⟨"ValidationError", rfl⟩)
